import Mathlib

/-!
# Stream compaction (`select`) of `labs/lab1_select/solutions/exercise1.cpp`

A shallow embedding of the function template `select` and of the standard
library pieces it is built from, followed by theorems about it.

Modelling conventions.

* A `std::vector<int>` is a `List Int`; a `std::vector<char>` is a `List Int`
  holding the values of the `char` objects; a `std::vector<size_t>` is a
  `List Nat` of values below `2 ^ 64`.
* Integral conversions are written out: `toSizeT` (conversion to the 64-bit
  unsigned `size_t`), `toChar` (conversion to the 8-bit `char`) and `toInt`
  (the cast `(int)` to the 32-bit `int`). All of them are reductions modulo
  `2 ^ width`.
* Whether plain `char` is signed and which of the two preprocessor branches of
  the scatter pass is compiled are fields of `Toolchain`.
* A call that throws or whose behaviour is undefined returns `Except.error`.
-/

namespace Lab1

/-- What a call of `select` can end with instead of returning a vector. -/
inductive Fault where
  /-- The exception `std::length_error`, thrown by the constructor of `std::vector`. -/
  | length_error
  /-- Undefined behaviour: an access outside of an array. -/
  | undefined_behaviour
  deriving DecidableEq, Repr

/-- The two properties of the compilation environment the code depends on. -/
structure Toolchain where
  /-- Plain `char` is a signed type (as on x86-64) or an unsigned one (as on AArch64 Linux). -/
  charSigned : Bool
  /-- The condition `__cplusplus >= 202002L || defined(__clang__)` of the `#if` in `select`. -/
  hasRanges : Bool
  deriving DecidableEq, Repr

/-- Conversion of an integer value to `size_t`: reduction modulo `2 ^ 64`. -/
def toSizeT (x : Int) : Nat := (x % 2 ^ 64).toNat

/-- Conversion of a `size_t` value to `char`: reduction modulo `2 ^ 8`, into
`[-128, 127]` when `char` is signed and into `[0, 255]` otherwise. -/
def toChar (tc : Toolchain) (x : Nat) : Int :=
  if tc.charSigned then (((x + 128) % 256 : Nat) : Int) - 128 else ((x % 256 : Nat) : Int)

/-- The cast `(int)` applied to a `size_t` value: reduction modulo `2 ^ 32` into
`[-2 ^ 31, 2 ^ 31 - 1]`. -/
def toInt (x : Nat) : Int := (((x + 2 ^ 31) % 2 ^ 32 : Nat) : Int) - 2 ^ 31

/-- The function object `std::plus<size_t>{}`: addition of two `size_t` values. -/
def plus_size_t (a b : Nat) : Nat := (a + b) % 2 ^ 64

/-- The function object `std::plus<size_t>{}` called with two `char` arguments,
as `inclusive_scan` does: both are converted to `size_t` first. -/
def binary_op (a b : Int) : Nat := plus_size_t (toSizeT a) (toSizeT b)

/-- The lambda `[](int x) { return x % 3 == 0; }` of `main`. -/
def predicate (x : Int) : Bool := Int.tmod x 3 == 0

/-- The mask `v_sel` after the `std::transform` call: one `char` per element. -/
def v_sel (pred : Int → Bool) (v : List Int) : List Int :=
  v.map (fun x => if pred x then (1 : Int) else (0 : Int))

/-- The five-argument `std::inclusive_scan`: the loop
`*result++ = init = binary_op(init, *first)`. The accumulator `init` has the
value type of the input range, `char`, so the sum is converted to `char` when
it is stored in `init`, and `init` is converted to `size_t` when it is written
to the output. -/
def inclusive_scan_init (tc : Toolchain) (init : Int) : List Int → List Nat
  | [] => []
  | c :: rest =>
    let init1 := toChar tc (binary_op init c)
    toSizeT init1 :: inclusive_scan_init tc init1 rest

/-- The four-argument `std::inclusive_scan` called by `select`: the first
element initialises the accumulator (`auto init = *first`) and is written
out, the rest goes through the five-argument overload. -/
def inclusive_scan (tc : Toolchain) : List Int → List Nat
  | [] => []
  | c :: rest => toSizeT c :: inclusive_scan_init tc c rest

/-- The vector `index` of `select` after the scan. -/
def index (tc : Toolchain) (pred : Int → Bool) (v : List Int) : List Nat :=
  inclusive_scan tc (v_sel pred v)

/-- The variable `numElem`: `index.empty() ? 0 : index.back()`. -/
def numElem (tc : Toolchain) (pred : Int → Bool) (v : List Int) : Nat :=
  if (index tc pred v).isEmpty then 0 else (index tc pred v).getLastD 0

/-- The value of `max_size()` of a `std::vector<int>` in libstdc++:
`PTRDIFF_MAX / sizeof(int)`. -/
def max_size : Nat := (2 ^ 63 - 1) / 4

/-- The constructor `std::vector<int> w(n)`: `n` value-initialised elements, or
`std::length_error` when `n` exceeds `max_size()`. -/
def vector_int (n : Nat) : Except Fault (List Int) :=
  if max_size < n then .error .length_error else .ok (List.replicate n 0)

/-- The assignment `w[pos] = x` through the raw pointer `w.data()`. -/
def store (w : List Int) (pos : Nat) (x : Int) : Except Fault (List Int) :=
  if pos < w.length then .ok (w.set pos x) else .error .undefined_behaviour

/-- The position `index[i] - 1`, computed in `size_t`. -/
def target (k : Nat) : Nat := (k + 2 ^ 64 - 1) % 2 ^ 64

/-- The body of the lambda of the `iota` branch:
`if (pred(v[i])) w[index[i] - 1] = v[i];`. -/
def scatter_iota (pred : Int → Bool) (v : List Int) (idx : List Nat)
    (w : List Int) (i : Nat) : Except Fault (List Int) :=
  match v[i]? with
  | none => .error .undefined_behaviour
  | some x =>
    if pred x then
      match idx[i]? with
      | none => .error .undefined_behaviour
      | some k => store w (target k) x
    else .ok w

/-- The body of the lambda of the fallback branch, called with a reference to
the element `x` of `v` at offset `i = &x - v`:
`if (pred(x)) { size_t i = &x - v; w[index[i] - 1] = x; }`. -/
def scatter_ptr (pred : Int → Bool) (idx : List Nat)
    (w : List Int) (ix : Nat × Int) : Except Fault (List Int) :=
  if pred ix.2 then
    match idx[ix.1]? with
    | none => .error .undefined_behaviour
    | some k => store w (target k) ix.2
  else .ok w

/-- The sequential `std::for_each` over the `iota` view, with the indices
visited in the order given by `order`. -/
def for_each_iota (pred : Int → Bool) (v : List Int) (idx : List Nat)
    (order : List Nat) (w : List Int) : Except Fault (List Int) :=
  order.foldlM (scatter_iota pred v idx) w

/-- The sequential `std::for_each` over the elements of `v`. -/
def for_each_ptr (pred : Int → Bool) (v : List Int) (idx : List Nat)
    (w : List Int) : Except Fault (List Int) :=
  v.enum.foldlM (scatter_ptr pred idx) w

/-- The number `INT_MAX + 1` of non-negative values of `int`. -/
def int_max_succ : Nat := 2 ^ 31

/-- The loop `for (; first != last; ++first)` of `std::for_each` over the
`iota` view when the bound `n = (int)v.size()` is negative. The counter is an
`int`: it runs from `0` to `INT_MAX`, the increment then takes it to `INT_MIN`,
and it goes on until it is equal to `n`. With `n = INT_MIN` the loop ends
there. Otherwise the lambda is called with the index `INT_MIN`, and its `v[i]`
is a read in front of the array. -/
def for_each_wrapped (pred : Int → Bool) (v : List Int) (idx : List Nat)
    (n : Int) (w : List Int) : Except Fault (List Int) := do
  let w1 ← for_each_iota pred v idx (List.range int_max_succ) w
  if n = -2 ^ 31 then pure w1 else .error .undefined_behaviour

/-- The scatter pass of `select`, either branch of the `#if`. In the `iota`
branch the bound of the loop is `(int)v.size()`. -/
def scatter (tc : Toolchain) (pred : Int → Bool) (v : List Int) (idx : List Nat)
    (w : List Int) : Except Fault (List Int) :=
  if tc.hasRanges then
    let n := toInt (v.length % 2 ^ 64)
    if n < 0 then for_each_wrapped pred v idx n w
    else for_each_iota pred v idx (List.range n.toNat) w
  else for_each_ptr pred v idx w

/-- The function template `select`. -/
def select (tc : Toolchain) (pred : Int → Bool) (v : List Int) : Except Fault (List Int) := do
  let w ← vector_int (numElem tc pred v)
  scatter tc pred v (index tc pred v) w

/-- Equality of two results of `select` can be decided. -/
instance decEqResult : DecidableEq (Except Fault (List Int))
  | .ok a, .ok b =>
    if h : a = b then isTrue (by rw [h]) else isFalse (fun h2 => h (Except.ok.inj h2))
  | .error a, .error b =>
    if h : a = b then isTrue (by rw [h]) else isFalse (fun h2 => h (Except.error.inj h2))
  | .ok _, .error _ => isFalse (fun h => Except.noConfusion h)
  | .error _, .ok _ => isFalse (fun h => Except.noConfusion h)

/-- The value stored in `index` when the exact running count is `c`: the count
after its passage through the `char` accumulator. -/
def wrapCount (tc : Toolchain) (c : Nat) : Nat := toSizeT (toChar tc c)

/-- The exact running counts of the elements satisfying `pred`, starting from `c`. -/
def ranksFrom (pred : Int → Bool) (c : Nat) : List Int → List Nat
  | [] => []
  | x :: xs =>
    let c1 := c + (if pred x then 1 else 0)
    c1 :: ranksFrom pred c1 xs

/-- The predicate `x == 1`. -/
def isOne (x : Int) : Bool := x == 1

/-- A length one above `2 ^ 32`, the number of values of `unsigned int`. -/
def hugeLength : Nat := 2 ^ 32

/-- A vector of `2 ^ 32 + 1` elements: `2 ^ 32` times the value `5`, then `1`. -/
def hugeInput : List Int := List.replicate hugeLength 5 ++ [1]

/-- A vector of `2 ^ 31` elements, all equal to `1`. -/
def halfHugeInput : List Int := List.replicate (hugeLength / 2) 1

/-- A vector of `2 ^ 31 + 1` elements, all equal to `1`. -/
def wrappedInput : List Int := List.replicate (hugeLength / 2 + 1) 1

/-- The order-preservation property in the words of the specification: a
strictly increasing mapping `f` from the positions of `w` to positions of `v`
whose values match. -/
def IsSubsequenceOf (w v : List Int) : Prop :=
  ∃ f : Nat → Nat, (∀ j k, j < k → k < w.length → f j < f k) ∧
    ∀ k, k < w.length → v[f k]? = w[k]?

/-- The largest running count that the `char` accumulator holds unchanged. -/
def charLimit (tc : Toolchain) : Nat := if tc.charSigned then 127 else 255

/-- The call of the lambda of the `iota` branch for the index `i` stays inside
of `v`, of `index` and of a vector `w` of length `len`. -/
def Writable (pred : Int → Bool) (v : List Int) (idx : List Nat) (len i : Nat) : Prop :=
  ∃ x, v[i]? = some x ∧ (pred x = true → ∃ k, idx[i]? = some k ∧ target k < len)

/-- The effect on `w` of the call of the lambda of the `iota` branch for the
index `i`, when the call stays in bounds. -/
def write_iota (pred : Int → Bool) (v : List Int) (idx : List Nat)
    (w : List Int) (i : Nat) : List Int :=
  match v[i]?, idx[i]? with
  | some x, some k => if pred x then w.set (target k) x else w
  | _, _ => w

/-- What a call of `select` with a predicate that may throw can end with
instead of returning a vector. -/
inductive Raised (ε : Type) where
  /-- The exception `e` thrown by the predicate, which `select` does not catch. -/
  | predicate_fault (e : ε)
  /-- A fault of `select` itself. -/
  | fault (f : Fault)

/-- A step of `select` that does not call the predicate, inside of a call of
`select` with a predicate that may throw. -/
def raise_fault {ε α : Type} : Except Fault α → Except (Raised ε) α
  | .ok a => .ok a
  | .error f => .error (.fault f)

/-- A call `pred(x)` of a predicate that may throw. -/
def call_pred {ε : Type} (pred : Int → Except ε Bool) (x : Int) : Except (Raised ε) Bool :=
  match pred x with
  | .ok b => .ok b
  | .error e => .error (.predicate_fault e)

/-- The `std::transform` call that builds the mask, with a predicate that may
throw: the elements are visited from the first to the last. -/
def transform_throwing {ε : Type} (pred : Int → Except ε Bool) :
    List Int → Except (Raised ε) (List Int)
  | [] => .ok []
  | x :: xs => do
    let b ← call_pred pred x
    let rest ← transform_throwing pred xs
    pure ((if b then (1 : Int) else (0 : Int)) :: rest)

/-- The lambda of the `iota` branch with a predicate that may throw. -/
def scatter_iota_throwing {ε : Type} (pred : Int → Except ε Bool) (v : List Int)
    (idx : List Nat) (w : List Int) (i : Nat) : Except (Raised ε) (List Int) :=
  match v[i]? with
  | none => .error (.fault .undefined_behaviour)
  | some x => do
    let b ← call_pred pred x
    if b then
      match idx[i]? with
      | none => .error (.fault .undefined_behaviour)
      | some k => raise_fault (store w (target k) x)
    else pure w

/-- The lambda of the fallback branch with a predicate that may throw. -/
def scatter_ptr_throwing {ε : Type} (pred : Int → Except ε Bool) (idx : List Nat)
    (w : List Int) (ix : Nat × Int) : Except (Raised ε) (List Int) := do
  let b ← call_pred pred ix.2
  if b then
    match idx[ix.1]? with
    | none => .error (.fault .undefined_behaviour)
    | some k => raise_fault (store w (target k) ix.2)
  else pure w

/-- The loop over the `iota` view with a negative bound `n`, with a predicate
that may throw. -/
def for_each_wrapped_throwing {ε : Type} (pred : Int → Except ε Bool) (v : List Int)
    (idx : List Nat) (n : Int) (w : List Int) : Except (Raised ε) (List Int) := do
  let w1 ← (List.range int_max_succ).foldlM (scatter_iota_throwing pred v idx) w
  if n = -2 ^ 31 then pure w1 else .error (.fault .undefined_behaviour)

/-- The scatter pass of `select` with a predicate that may throw. -/
def scatter_throwing {ε : Type} (tc : Toolchain) (pred : Int → Except ε Bool) (v : List Int)
    (idx : List Nat) (w : List Int) : Except (Raised ε) (List Int) :=
  if tc.hasRanges then
    let n := toInt (v.length % 2 ^ 64)
    if n < 0 then for_each_wrapped_throwing pred v idx n w
    else (List.range n.toNat).foldlM (scatter_iota_throwing pred v idx) w
  else v.enum.foldlM (scatter_ptr_throwing pred idx) w

/-- The function template `select` with a predicate that may throw. -/
def select_throwing {ε : Type} (tc : Toolchain) (pred : Int → Except ε Bool) (v : List Int) :
    Except (Raised ε) (List Int) := do
  let mask ← transform_throwing pred v
  let idx := inclusive_scan tc mask
  let n := if idx.isEmpty then 0 else idx.getLastD 0
  let w ← raise_fault (vector_int n)
  scatter_throwing tc pred v idx w

/-- The predicate of `main` as a predicate that may throw: it never does. -/
def predicate_nothrow (x : Int) : Except Unit Bool := .ok (predicate x)

/-- The test `isspace` of the C locale. -/
def isspace (c : Char) : Bool := c.toNat == 32 || (9 ≤ c.toNat && c.toNat ≤ 13)

/-- The test `isdigit`. -/
def isdigit (c : Char) : Bool := 48 ≤ c.toNat && c.toNat ≤ 57

/-- The exceptions of `std::stoll`. -/
inductive StollError where
  /-- The exception `std::invalid_argument`: no conversion could be performed. -/
  | invalid_argument
  /-- The exception `std::out_of_range`: the value does not fit in `long long`. -/
  | out_of_range
  deriving DecidableEq, Repr

/-- The value of a sequence of decimal digits. -/
def digits_value (ds : List Char) : Nat :=
  ds.foldl (fun a c => 10 * a + (c.toNat - 48)) 0

/-- The text after the optional sign, and whether the sign is a minus. -/
def strip_sign : List Char → Bool × List Char
  | '-' :: t => (true, t)
  | '+' :: t => (false, t)
  | s => (false, s)

/-- The call `std::stoll(str)` on the characters of `str`, in base 10: white
space is skipped, an optional sign and the longest run of digits are
converted, and whatever follows is ignored. -/
def stoll (str : List Char) : Except StollError Int :=
  let signed := strip_sign (str.dropWhile isspace)
  let ds := signed.2.takeWhile isdigit
  if ds.isEmpty then .error .invalid_argument
  else
    let r : Int := if signed.1 then -(digits_value ds : Int) else (digits_value ds : Int)
    if r < -2 ^ 63 ∨ 2 ^ 63 - 1 < r then .error .out_of_range else .ok r

/-- How a run of `main` ends. -/
inductive Ending where
  /-- The statement `return code;` of `main`. -/
  | returned (code : Int)
  /-- The call of `std::terminate` for an exception that nothing catches. -/
  | terminated
  /-- Undefined behaviour. -/
  | undefined
  deriving DecidableEq, Repr

/-- A run of `main`: how it ends, and whether it has called `select`. -/
structure Run where
  /-- How the run ends. -/
  ending : Ending
  /-- The run has called `select`. -/
  select_called : Bool
  deriving DecidableEq, Repr

/-- The function `main`. The list `argv` holds `argc` strings, the name of the
binary first; `fill` stands for the function that fills the vector with
pseudo-random values. -/
def main (tc : Toolchain) (fill : List Int → List Int) (argv : List (List Char)) : Run :=
  if argv.length ≠ 2 then ⟨.returned 1, false⟩
  else
    match stoll (argv.getD 1 []) with
    | .error _ => ⟨.terminated, false⟩
    | .ok n =>
      match vector_int (toSizeT n) with
      | .error _ => ⟨.terminated, false⟩
      | .ok v =>
        match select tc predicate (fill v) with
        | .error .length_error => ⟨.terminated, true⟩
        | .error .undefined_behaviour => ⟨.undefined, true⟩
        | .ok w => if w.all predicate then ⟨.returned 0, true⟩ else ⟨.returned 1, true⟩

/-- The reading of "the argument parses as an integer" of the specification:
the whole argument is an optional sign followed by one or more digits. -/
def is_integer_text (str : List Char) : Bool :=
  let ds := (strip_sign str).2
  !ds.isEmpty && ds.all isdigit

theorem toChar_binary_op (tc : Toolchain) (c : Nat) (b : Bool) :
    toChar tc (binary_op (toChar tc c) (if b then 1 else 0))
      = toChar tc (c + (if b then 1 else 0)) := by
  unfold toChar binary_op plus_size_t toSizeT
  cases tc.charSigned <;> cases b <;> simp <;> omega

theorem toChar_bit (tc : Toolchain) (b : Bool) :
    ((if b then 1 else 0) : Int) = toChar tc (if b then 1 else 0) := by
  unfold toChar
  cases tc.charSigned <;> cases b <;> simp

theorem inclusive_scan_init_eq (tc : Toolchain) (pred : Int → Bool) (v : List Int) (c : Nat) :
    inclusive_scan_init tc (toChar tc c) (v_sel pred v)
      = (ranksFrom pred c v).map (wrapCount tc) := by
  induction v generalizing c with
  | nil => rfl
  | cons x xs ih =>
    simp only [v_sel, List.map_cons, inclusive_scan_init, ranksFrom, wrapCount]
    rw [toChar_binary_op tc c (pred x)]
    have := ih (c + (if pred x then 1 else 0))
    simp only [v_sel, wrapCount] at this
    rw [this]

theorem index_eq (tc : Toolchain) (pred : Int → Bool) (v : List Int) :
    index tc pred v = (ranksFrom pred 0 v).map (wrapCount tc) := by
  cases v with
  | nil => rfl
  | cons x xs =>
    simp only [index, v_sel, List.map_cons, inclusive_scan, ranksFrom, wrapCount, Nat.zero_add]
    have h := inclusive_scan_init_eq tc pred xs (if pred x then 1 else 0)
    rw [← toChar_bit tc (pred x)] at h
    simp only [v_sel, wrapCount] at h
    rw [h]
    congr 2
    cases pred x <;> simp [toChar]



theorem length_ranksFrom (pred : Int → Bool) (c : Nat) (v : List Int) :
    (ranksFrom pred c v).length = v.length := by
  induction v generalizing c with
  | nil => rfl
  | cons x xs ih => simp [ranksFrom, ih]

theorem getLastD_ranksFrom (pred : Int → Bool) (c : Nat) (v : List Int) :
    (ranksFrom pred c v).getLastD c = c + v.countP pred := by
  induction v generalizing c with
  | nil => simp [ranksFrom]
  | cons x xs ih =>
    simp only [ranksFrom, List.getLastD_cons, ih, List.countP_cons]
    cases pred x <;> simp; omega

theorem getElem?_ranksFrom (pred : Int → Bool) (c : Nat) (v : List Int) (i : Nat)
    (hi : i < v.length) :
    (ranksFrom pred c v)[i]? = some (c + (v.take (i + 1)).countP pred) := by
  induction v generalizing c i with
  | nil => simp at hi
  | cons x xs ih =>
    cases i with
    | zero => cases h : pred x <;> simp [ranksFrom, h]
    | succ j =>
      have hj : j < xs.length := by simpa using hi
      simp only [ranksFrom, List.getElem?_cons_succ, ih _ j hj, List.take_succ_cons,
        List.countP_cons]
      cases pred x <;> simp; omega

theorem getLastD_map_wrap (f : Nat → Nat) (l : List Nat) (a : Nat) :
    (l.map f).getLastD (f a) = f (l.getLastD a) := by
  induction l generalizing a with
  | nil => rfl
  | cons x xs ih => simp only [List.map_cons, List.getLastD_cons, ih]

theorem numElem_eq (tc : Toolchain) (pred : Int → Bool) (v : List Int) :
    numElem tc pred v = wrapCount tc (v.countP pred) := by
  unfold numElem
  rw [index_eq]
  cases v with
  | nil => cases h : tc.charSigned <;> simp [ranksFrom, wrapCount, toSizeT, toChar, h]
  | cons x xs =>
    have h := getLastD_ranksFrom pred (0 + (if pred x then 1 else 0)) xs
    simp only [ranksFrom, List.map_cons, List.isEmpty_cons, Bool.false_eq_true, if_false,
      List.getLastD_cons, List.countP_cons]
    rw [getLastD_map_wrap, h]
    congr 1
    cases pred x <;> simp; omega

theorem getElem?_index (tc : Toolchain) (pred : Int → Bool) (v : List Int) (i : Nat)
    (hi : i < v.length) :
    (index tc pred v)[i]? = some (wrapCount tc ((v.take (i + 1)).countP pred)) := by
  rw [index_eq, List.getElem?_map, getElem?_ranksFrom pred 0 v i hi]
  simp

theorem length_index (tc : Toolchain) (pred : Int → Bool) (v : List Int) :
    (index tc pred v).length = v.length := by
  rw [index_eq, List.length_map, length_ranksFrom]

theorem select_eq_length_error (tc : Toolchain) (pred : Int → Bool) (v : List Int)
    (h : max_size < wrapCount tc (v.countP pred)) :
    select tc pred v = .error .length_error := by
  unfold select
  rw [numElem_eq]
  simp only [vector_int, h, if_true]
  rfl

theorem select_eq_scatter (tc : Toolchain) (pred : Int → Bool) (v : List Int)
    (h : wrapCount tc (v.countP pred) ≤ max_size) :
    select tc pred v
      = scatter tc pred v (index tc pred v) (List.replicate (wrapCount tc (v.countP pred)) 0) := by
  unfold select
  rw [numElem_eq]
  simp only [vector_int, Nat.not_lt.mpr h, if_false]
  rfl

theorem wrapCount_signed_128 (r : Bool) : wrapCount ⟨true, r⟩ 128 = 2 ^ 64 - 128 := by
  cases r <;> decide

theorem wrapCount_256 (tc : Toolchain) (c : Nat) : wrapCount tc (c + 256) = wrapCount tc c := by
  unfold wrapCount toChar
  congr 1
  cases tc.charSigned <;> simp; omega

theorem wrapCount_of_le (tc : Toolchain) (c : Nat) (h : c ≤ 127) : wrapCount tc c = c := by
  unfold wrapCount toChar toSizeT
  cases tc.charSigned <;> simp <;> omega

theorem countP_replicate_true (pred : Int → Bool) (a : Int) (n : Nat) (h : pred a = true) :
    (List.replicate n a).countP pred = n := by
  rw [List.countP_replicate, h]; simp

theorem getElem?_index_replicate (tc : Toolchain) (pred : Int → Bool) (a : Int) (n i : Nat)
    (h : pred a = true) (hi : i < n) :
    (index tc pred (List.replicate n a))[i]? = some (wrapCount tc (i + 1)) := by
  rw [getElem?_index tc pred _ i (by simpa using hi), List.take_replicate,
    countP_replicate_true pred a _ h]
  congr 2
  omega

theorem select_threes_128 (r : Bool) :
    select ⟨true, r⟩ predicate (List.replicate 128 3) = .error .length_error := by
  apply select_eq_length_error
  rw [countP_replicate_true predicate 3 128 (by decide), wrapCount_signed_128]
  decide

theorem for_each_iota_cons (pred : Int → Bool) (v : List Int) (idx : List Nat)
    (i : Nat) (rest : List Nat) (w : List Int) :
    for_each_iota pred v idx (i :: rest) w
      = (scatter_iota pred v idx w i) >>= for_each_iota pred v idx rest := by
  rfl

theorem for_each_iota_nil (pred : Int → Bool) (v : List Int) (idx : List Nat) (w : List Int) :
    for_each_iota pred v idx [] w = .ok w := rfl

theorem toInt_of_lt (n : Nat) (h : n < 2 ^ 31) : toInt n = n := by
  unfold toInt
  omega

theorem scatter_iota_of_not_pred (pred : Int → Bool) (v : List Int) (idx : List Nat)
    (w : List Int) (i : Nat) (x : Int) (hv : v[i]? = some x) (hx : pred x = false) :
    scatter_iota pred v idx w i = .ok w := by
  unfold scatter_iota
  rw [hv]
  simp only [hx, Bool.false_eq_true, if_false]

/-- In the `iota` branch, when `(int)v.size()` is `1` and the first element is
not selected, the scatter pass leaves `w` as the constructor made it. -/
theorem select_of_toInt_length_eq_one (s : Bool) (pred : Int → Bool) (v : List Int) (x : Int)
    (hlen : toInt (v.length % 2 ^ 64) = 1) (hv : v[0]? = some x) (hx : pred x = false)
    (hc : v.countP pred = 1) :
    select ⟨s, true⟩ pred v = .ok [0] := by
  have hw : wrapCount ⟨s, true⟩ 1 = 1 := wrapCount_of_le _ 1 (by omega)
  have hm : (1 : Nat) ≤ max_size := by norm_num [max_size]
  have hr : List.range (1 : Int).toNat = [0] := by decide
  rw [select_eq_scatter _ _ _ (by rw [hc, hw]; exact hm), hc, hw]
  simp only [scatter, if_true, hlen, hr]
  rw [if_neg (by decide), for_each_iota_cons, scatter_iota_of_not_pred pred v _ _ 0 x hv hx]
  rfl

theorem hugeLength_eq : hugeLength = 4294967296 := by norm_num [hugeLength]

theorem hugeLength_pos : 0 < hugeLength := by norm_num [hugeLength]

theorem length_hugeInput : hugeInput.length = hugeLength + 1 := by
  unfold hugeInput
  rw [List.length_append, List.length_replicate, List.length_singleton]

theorem countP_hugeInput : hugeInput.countP isOne = 1 := by
  have h5 : isOne 5 = false := by decide
  have h1 : isOne 1 = true := by decide
  simp [hugeInput, List.countP_append, List.countP_replicate, h5, h1, List.countP_cons]

theorem getElem?_hugeInput_zero : hugeInput[0]? = some 5 := by
  unfold hugeInput
  rw [List.getElem?_append_left (by rw [List.length_replicate]; exact hugeLength_pos),
    List.getElem?_replicate, if_pos hugeLength_pos]

theorem toInt_length_hugeInput : toInt (hugeInput.length % 2 ^ 64) = 1 := by
  rw [length_hugeInput, hugeLength_eq]; norm_num [toInt]

theorem select_hugeInput (s : Bool) : select ⟨s, true⟩ isOne hugeInput = .ok [0] :=
  select_of_toInt_length_eq_one s isOne hugeInput 5 toInt_length_hugeInput
    getElem?_hugeInput_zero (by decide) countP_hugeInput

theorem getElem?_index_zero (tc : Toolchain) (pred : Int → Bool) (x : Int) (xs : List Int)
    (hx : pred x = true) : (index tc pred (x :: xs))[0]? = some 1 := by
  rw [getElem?_index tc pred (x :: xs) 0 (by simp)]
  simp only [Nat.zero_add, List.take_succ_cons, List.take_zero, List.countP_cons, List.countP_nil,
    hx, if_true]
  rw [wrapCount_of_le tc 1 (by omega)]

theorem store_nil (pos : Nat) (x : Int) : store [] pos x = .error .undefined_behaviour := by
  simp [store]

theorem target_one : target 1 = 0 := by decide

/-- When the stored element count is `0` although the first element is
selected, the first write of the scatter pass is outside of the empty `w`. -/
theorem select_of_first_store_outside (tc : Toolchain) (pred : Int → Bool) (x : Int)
    (xs : List Int) (hx : pred x = true)
    (hc : wrapCount tc ((x :: xs).countP pred) = 0)
    (hlen : 0 < toInt ((x :: xs).length % 2 ^ 64)) :
    select tc pred (x :: xs) = .error .undefined_behaviour := by
  rw [select_eq_scatter _ _ _ (by rw [hc]; exact Nat.zero_le _), hc]
  unfold scatter
  cases hr : tc.hasRanges
  · simp only [Bool.false_eq_true, if_false, for_each_ptr, List.enum_cons, List.foldlM_cons,
      scatter_ptr, hx, if_true, getElem?_index_zero tc pred x xs hx, target_one]
    rfl
  · simp only [if_true]
    rw [if_neg (by omega)]
    obtain ⟨m, hm⟩ : ∃ m, (toInt ((x :: xs).length % 2 ^ 64)).toNat = m + 1 :=
      ⟨(toInt ((x :: xs).length % 2 ^ 64)).toNat - 1, by omega⟩
    rw [hm, List.range_succ_eq_map, for_each_iota_cons]
    simp only [scatter_iota, List.getElem?_cons_zero, hx, if_true,
      getElem?_index_zero tc pred x xs hx, target_one]
    rfl

theorem select_threes_256 (tc : Toolchain) :
    select tc predicate (List.replicate 256 3) = .error .undefined_behaviour := by
  have h : List.replicate 256 (3 : Int) = 3 :: List.replicate 255 3 := rfl
  have hc : (List.replicate 256 (3 : Int)).countP predicate = 0 + 256 := by
    rw [countP_replicate_true predicate 3 256 (by decide)]
  have hl : (List.replicate 256 (3 : Int)).length = 256 := List.length_replicate ..
  rw [h] at hc hl ⊢
  refine select_of_first_store_outside tc predicate 3 _ (by decide) ?_ ?_
  · rw [hc, wrapCount_256]
    exact wrapCount_of_le tc 0 (by omega)
  · rw [hl]; decide

theorem length_halfHugeInput : halfHugeInput.length = 2147483648 := by
  unfold halfHugeInput
  rw [List.length_replicate, hugeLength_eq]

theorem scatter_iota_eq_scatter_ptr (pred : Int → Bool) (v : List Int) (idx : List Nat)
    (w : List Int) (i : Nat) (x : Int) (hv : v[i]? = some x) :
    scatter_iota pred v idx w i = scatter_ptr pred idx w (i, x) := by
  unfold scatter_iota scatter_ptr
  rw [hv]

theorem foldlM_range'_eq_enumFrom (pred : Int → Bool) (idx : List Nat) (rest pre : List Int)
    (w : List Int) :
    (List.range' pre.length rest.length).foldlM (scatter_iota pred (pre ++ rest) idx) w
      = (rest.enumFrom pre.length).foldlM (scatter_ptr pred idx) w := by
  induction rest generalizing pre w with
  | nil => rfl
  | cons x xs ih =>
    have hv : (pre ++ x :: xs)[pre.length]? = some x := by
      rw [List.getElem?_append_right (Nat.le_refl _), Nat.sub_self, List.getElem?_cons_zero]
    simp only [List.length_cons, List.range'_succ, List.enumFrom_cons, List.foldlM_cons]
    rw [scatter_iota_eq_scatter_ptr pred _ idx w pre.length x hv]
    have h := fun w1 => ih (pre ++ [x]) w1
    simp only [List.length_append, List.length_singleton, List.append_assoc,
      List.singleton_append] at h
    simp only [h]

/-- The two branches of the scatter pass agree when the `iota` view runs over
all of `0 .. v.size() - 1`. -/
theorem for_each_iota_range_eq_for_each_ptr (pred : Int → Bool) (v : List Int) (idx : List Nat)
    (w : List Int) :
    for_each_iota pred v idx (List.range v.length) w = for_each_ptr pred v idx w := by
  have h := foldlM_range'_eq_enumFrom pred idx v [] w
  simp only [List.length_nil, List.nil_append] at h
  rw [for_each_iota, for_each_ptr, List.range_eq_range', h, List.enum]

theorem scatter_eq_for_each_ptr (tc : Toolchain) (pred : Int → Bool) (v : List Int)
    (idx : List Nat) (w : List Int) (hlen : tc.hasRanges = true → v.length < 2 ^ 31) :
    scatter tc pred v idx w = for_each_ptr pred v idx w := by
  unfold scatter
  cases hr : tc.hasRanges
  · simp
  · have hl := hlen hr
    have h1 : v.length % 2 ^ 64 = v.length := Nat.mod_eq_of_lt (by omega)
    simp only [if_true, h1, toInt_of_lt _ hl]
    rw [if_neg (by omega), Int.toNat_ofNat, for_each_iota_range_eq_for_each_ptr]

theorem target_succ (c : Nat) (h : c < 2 ^ 64 - 1) : target (c + 1) = c := by
  unfold target
  omega

theorem set_append_cons (l1 l2 : List Int) (a b : Int) :
    (l1 ++ a :: l2).set l1.length b = l1 ++ b :: l2 := by
  induction l1 with
  | nil => rfl
  | cons x xs ih => simp only [List.cons_append, List.length_cons, List.set_cons_succ, ih]

theorem store_append_cons (l1 l2 : List Int) (a b : Int) :
    store (l1 ++ a :: l2) l1.length b = .ok (l1 ++ b :: l2) := by
  unfold store
  rw [if_pos (by simp), set_append_cons]

/-- The invariant of the scatter pass when `index` holds the exact running
counts: after the elements of `pre` the vector `w` starts with the selected
elements of `pre`, and its remaining slots still hold their initial value. -/
theorem foldlM_scatter_ptr_exact (pred : Int → Bool) (idx : List Nat) (v : List Int)
    (hidx : ∀ i, i < v.length → idx[i]? = some ((v.take (i + 1)).countP pred))
    (hc : v.countP pred < 2 ^ 64) (rest pre : List Int) (hv : v = pre ++ rest) :
    (rest.enumFrom pre.length).foldlM (scatter_ptr pred idx)
        (pre.filter pred ++ List.replicate (rest.countP pred) 0)
      = .ok (v.filter pred) := by
  induction rest generalizing pre with
  | nil =>
    subst hv
    simp only [List.enumFrom_nil, List.foldlM_nil, List.countP_nil, List.replicate_zero,
      List.append_nil]
    rfl
  | cons x xs ih =>
    have hv2 : v = (pre ++ [x]) ++ xs := by rw [hv, List.append_assoc, List.singleton_append]
    have ih2 := ih (pre ++ [x]) hv2
    simp only [List.length_append, List.length_singleton] at ih2
    simp only [List.enumFrom_cons, List.foldlM_cons]
    cases hx : pred x
    · have hs : scatter_ptr pred idx
          (pre.filter pred ++ List.replicate ((x :: xs).countP pred) 0) (pre.length, x)
          = .ok ((pre ++ [x]).filter pred ++ List.replicate (xs.countP pred) 0) := by
        simp [scatter_ptr, hx, List.countP_cons, List.filter_append]
      rw [hs]
      exact ih2
    · have hi : idx[pre.length]? = some (pre.countP pred + 1) := by
        rw [hidx pre.length (by rw [hv]; simp)]
        have ht : List.take (pre.length + 1) v = pre ++ [x] := by
          rw [hv2, List.take_left' (by simp)]
        rw [ht, List.countP_append]
        simp [hx]
      have hlt : pre.countP pred < 2 ^ 64 - 1 := by
        have h1 : v.countP pred = pre.countP pred + (xs.countP pred + 1) := by
          rw [hv, List.countP_append, List.countP_cons, hx]; simp
        omega
      have hs : scatter_ptr pred idx
          (pre.filter pred ++ List.replicate ((x :: xs).countP pred) 0) (pre.length, x)
          = .ok ((pre ++ [x]).filter pred ++ List.replicate (xs.countP pred) 0) := by
        simp only [scatter_ptr, hx, if_true, hi, target_succ _ hlt, List.countP_cons,
          List.replicate_succ, List.filter_append, List.filter_cons, List.filter_nil,
          List.append_assoc, List.singleton_append]
        have hl : List.countP pred pre = (List.filter pred pre).length :=
          List.countP_eq_length_filter _ _
        rw [hl]
        exact store_append_cons _ _ _ _
      rw [hs]
      exact ih2

theorem countP_take_le (pred : Int → Bool) (v : List Int) (n : Nat) :
    (v.take n).countP pred ≤ v.countP pred := by
  conv_rhs => rw [← List.take_append_drop n v, List.countP_append]
  exact Nat.le_add_right _ _

/-- Up to 127 selected elements, and with a length that fits in `int` in the
`iota` branch, `select` returns the elements that satisfy the predicate, in
their order. -/
theorem select_eq_filter_of_le (tc : Toolchain) (pred : Int → Bool) (v : List Int)
    (hc : v.countP pred ≤ 127) (hlen : tc.hasRanges = true → v.length < 2 ^ 31) :
    select tc pred v = .ok (v.filter pred) := by
  have hw : wrapCount tc (v.countP pred) = v.countP pred := wrapCount_of_le tc _ hc
  have hm : v.countP pred ≤ max_size := by
    have : (127 : Nat) ≤ max_size := by norm_num [max_size]
    omega
  rw [select_eq_scatter tc pred v (by rw [hw]; exact hm), hw,
    scatter_eq_for_each_ptr tc pred v _ _ hlen]
  have h := foldlM_scatter_ptr_exact pred (index tc pred v) v (fun i hi => by
    rw [getElem?_index tc pred v i hi,
      wrapCount_of_le tc _ (Nat.le_trans (countP_take_le pred v _) hc)]) (by omega) v [] rfl
  simpa [for_each_ptr, List.enum] using h

theorem not_mem_zero_hugeInput : (0 : Int) ∉ hugeInput := by
  unfold hugeInput
  rw [List.mem_append, List.mem_replicate, List.mem_singleton]
  rintro (⟨_, h⟩ | h) <;> exact absurd h (by decide)

set_option maxRecDepth 4000 in
theorem select_isOne_zero (tc : Toolchain) : select tc isOne [0] = .ok [] := by
  obtain ⟨s, r⟩ := tc
  cases s <;> cases r <;> decide

/-- C1 (violated by the code): with a signed `char`, on 128 multiples of three
and the predicate of `main`, `select` ends with `std::length_error` instead of
returning the elements that satisfy the predicate. -/
theorem select_threes_128_ne_filter (r : Bool) :
    select ⟨true, r⟩ predicate (List.replicate 128 3) = .error .length_error ∧
      select ⟨true, r⟩ predicate (List.replicate 128 3)
        ≠ .ok ((List.replicate 128 3).filter predicate) := by
  have h := select_threes_128 r
  exact ⟨h, by rw [h]; exact fun h2 => Except.noConfusion h2⟩

/-- C2 (violated by the code): in the `iota` branch, on `2 ^ 32` fives followed
by a one and the predicate `x == 1`, `select` returns a vector that is not a
subsequence of its input. -/
theorem select_hugeInput_not_subsequence (s : Bool) :
    ∃ w, select ⟨s, true⟩ isOne hugeInput = .ok w ∧ ¬ IsSubsequenceOf w hugeInput := by
  refine ⟨[0], select_hugeInput s, ?_⟩
  rintro ⟨f, -, hf⟩
  have h := hf 0 (by simp)
  exact not_mem_zero_hugeInput (List.getElem?_mem h)

/-- C3 (violated by the code): in the `iota` branch, on `2 ^ 32` fives followed
by a one and the predicate `x == 1`, `select` returns a vector with an element
that does not satisfy the predicate. -/
theorem select_hugeInput_not_all (s : Bool) :
    ∃ w, select ⟨s, true⟩ isOne hugeInput = .ok w ∧ ∃ x ∈ w, isOne x = false :=
  ⟨[0], select_hugeInput s, 0, by simp, by decide⟩

/-- C4 (violated by the code): with a signed `char`, the predicate of `main`
holds for each of 128 multiples of three, yet `select` returns no vector of
length 128. -/
theorem select_threes_128_no_length (r : Bool) :
    (∀ x ∈ List.replicate 128 (3 : Int), predicate x = true) ∧
      ¬ ∃ w, select ⟨true, r⟩ predicate (List.replicate 128 3) = .ok w ∧
        w.length = (List.replicate 128 (3 : Int)).length := by
  refine ⟨fun x hx => ?_, ?_⟩
  · rw [List.eq_of_mem_replicate hx]; decide
  · rintro ⟨w, hw, -⟩
    rw [select_threes_128 r] at hw
    exact Except.noConfusion hw

/-- C5 (violated by the code): in the `iota` branch, on `2 ^ 32` fives followed
by a one and the predicate `x == 1`, a second application of `select` changes
the result of the first. -/
theorem select_select_hugeInput_ne (s : Bool) :
    select ⟨s, true⟩ isOne hugeInput = .ok [0] ∧
      (select ⟨s, true⟩ isOne hugeInput >>= select ⟨s, true⟩ isOne) = .ok [] ∧
      (select ⟨s, true⟩ isOne hugeInput >>= select ⟨s, true⟩ isOne)
        ≠ select ⟨s, true⟩ isOne hugeInput := by
  have h2 : (select ⟨s, true⟩ isOne hugeInput >>= select ⟨s, true⟩ isOne) = .ok [] := by
    rw [select_hugeInput s]
    exact select_isOne_zero ⟨s, true⟩
  refine ⟨select_hugeInput s, h2, ?_⟩
  rw [h2, select_hugeInput s]
  intro h
  exact absurd (Except.ok.inj h) (by decide)

/-- C6 (violated by the code): with a signed `char`, `select` with the
always-true predicate on a vector of 128 elements ends with
`std::length_error` instead of returning the vector. -/
theorem select_true_sevens_128 (r : Bool) :
    select ⟨true, r⟩ (fun _ => true) (List.replicate 128 7) = .error .length_error ∧
      select ⟨true, r⟩ (fun _ => true) (List.replicate 128 7) ≠ .ok (List.replicate 128 7) := by
  have h : select ⟨true, r⟩ (fun _ => true) (List.replicate 128 7) = .error .length_error := by
    apply select_eq_length_error
    rw [countP_replicate_true (fun _ => true) 7 128 rfl, wrapCount_signed_128]
    decide
  exact ⟨h, by rw [h]; exact fun h2 => Except.noConfusion h2⟩

theorem int_max_succ_eq : int_max_succ = 2147483648 := by norm_num [int_max_succ]

theorem for_each_iota_of_none_selected (pred : Int → Bool) (v : List Int) (idx : List Nat)
    (order : List Nat) (w : List Int)
    (h : ∀ i ∈ order, ∃ x, v[i]? = some x ∧ pred x = false) :
    for_each_iota pred v idx order w = .ok w := by
  induction order with
  | nil => rfl
  | cons i rest ih =>
    obtain ⟨x, hx, hp⟩ := h i (List.mem_cons_self _ _)
    rw [for_each_iota_cons, scatter_iota_of_not_pred pred v idx w i x hx hp]
    exact ih (fun j hj => h j (List.mem_cons_of_mem _ hj))

theorem for_each_wrapped_of_ok (pred : Int → Bool) (v : List Int) (idx : List Nat) (n : Int)
    (w w1 : List Int) (h : for_each_iota pred v idx (List.range int_max_succ) w = .ok w1) :
    for_each_wrapped pred v idx n w
      = if n = -2 ^ 31 then .ok w1 else .error .undefined_behaviour := by
  unfold for_each_wrapped
  rw [h]
  rfl

theorem getElem?_of_none_selected (pred : Int → Bool) (v : List Int)
    (hnone : ∀ x ∈ v, pred x = false) (i : Nat) (hi : i < v.length) :
    ∃ x, v[i]? = some x ∧ pred x = false :=
  ⟨v[i], List.getElem?_eq_getElem hi, hnone _ (List.getElem_mem hi)⟩

/-- When no element of `v` is selected and the loop of the `iota` branch stays
in `v`, the scatter pass leaves `w` as it is. -/
theorem scatter_of_none_selected (tc : Toolchain) (pred : Int → Bool) (v : List Int)
    (idx : List Nat) (w : List Int) (hnone : ∀ x ∈ v, pred x = false)
    (hin : tc.hasRanges = true → v.length % 2 ^ 32 ≤ 2 ^ 31) :
    scatter tc pred v idx w = .ok w := by
  unfold scatter
  cases hr : tc.hasRanges
  · simp only [Bool.false_eq_true, if_false]
    rw [← for_each_iota_range_eq_for_each_ptr]
    exact for_each_iota_of_none_selected pred v idx _ w (fun i hi =>
      getElem?_of_none_selected pred v hnone i (List.mem_range.mp hi))
  · have hl := hin hr
    simp only [if_true]
    by_cases hneg : toInt (v.length % 2 ^ 64) < 0
    · have hmin : toInt (v.length % 2 ^ 64) = -2 ^ 31 := by
        unfold toInt at hneg ⊢
        omega
      rw [if_pos hneg, for_each_wrapped_of_ok pred v idx _ w w
        (for_each_iota_of_none_selected pred v idx _ w (fun i hi =>
          getElem?_of_none_selected pred v hnone i (by
            have hi2 := List.mem_range.mp hi
            rw [int_max_succ_eq] at hi2
            unfold toInt at hneg
            omega))), if_pos hmin]
    · rw [if_neg hneg]
      exact for_each_iota_of_none_selected pred v idx _ w (fun i hi =>
        getElem?_of_none_selected pred v hnone i (by
          have hi2 := List.mem_range.mp hi
          unfold toInt at hneg hi2
          omega))

/-- When no element of `v` is selected and the loop of the `iota` branch stays
in `v`, `select` returns the empty vector. -/
theorem select_of_none_selected (tc : Toolchain) (pred : Int → Bool) (v : List Int)
    (hnone : ∀ x ∈ v, pred x = false)
    (hin : tc.hasRanges = true → v.length % 2 ^ 32 ≤ 2 ^ 31) :
    select tc pred v = .ok [] := by
  have hc : v.countP pred = 0 :=
    List.countP_eq_zero.mpr (fun x hx => by rw [hnone x hx]; simp)
  have hw : wrapCount tc 0 = 0 := wrapCount_of_le tc 0 (by omega)
  rw [select_eq_scatter tc pred v (by rw [hc, hw]; exact Nat.zero_le _), hc, hw,
    scatter_of_none_selected tc pred v _ _ hnone hin]
  rfl

/-- On `2 ^ 31` elements the counter of the `iota` branch runs over all of
them and stops at its bound `INT_MIN`: with the always-false predicate
`select` returns the empty vector. -/
theorem select_halfHugeInput (s : Bool) :
    select ⟨s, true⟩ (fun _ => false) halfHugeInput = .ok [] :=
  select_of_none_selected ⟨s, true⟩ _ halfHugeInput (fun _ _ => rfl)
    (fun _ => by rw [length_halfHugeInput]; norm_num)

/-- When no element of `v` is selected and the bound `(int)v.size()` is
negative and not `INT_MIN`, the loop of the `iota` branch leaves `v`. -/
theorem select_of_wrapped (s : Bool) (pred : Int → Bool) (v : List Int)
    (hnone : ∀ x ∈ v, pred x = false)
    (hneg : toInt (v.length % 2 ^ 64) < 0) (hne : toInt (v.length % 2 ^ 64) ≠ -2 ^ 31) :
    select ⟨s, true⟩ pred v = .error .undefined_behaviour := by
  have hc : v.countP pred = 0 :=
    List.countP_eq_zero.mpr (fun x hx => by rw [hnone x hx]; simp)
  have hw : wrapCount ⟨s, true⟩ 0 = 0 := wrapCount_of_le _ 0 (by omega)
  rw [select_eq_scatter _ pred v (by rw [hc, hw]; exact Nat.zero_le _), hc, hw]
  unfold scatter
  simp only [if_true]
  rw [if_pos hneg, for_each_wrapped_of_ok pred v _ _ _ _
    (for_each_iota_of_none_selected pred v _ _ _ (fun i hi =>
      getElem?_of_none_selected pred v hnone i (by
        have hi2 := List.mem_range.mp hi
        rw [int_max_succ_eq] at hi2
        unfold toInt at hneg
        omega))), if_neg hne]

theorem length_wrappedInput : wrappedInput.length = 2147483649 := by
  unfold wrappedInput
  rw [List.length_replicate, hugeLength_eq]

/-- C7 (violated by the code): in the `iota` branch, on `2 ^ 31 + 1` elements
equal to `1` and the predicate of `main`, which holds for none of them, the
bound `(int)v.size()` is `INT_MIN + 1`: the counter of the loop runs over
`0 .. INT_MAX`, goes to `INT_MIN`, and the lambda reads `v[INT_MIN]`, in front
of the array, instead of `select` returning the empty vector. -/
theorem select_wrappedInput (s : Bool) :
    wrappedInput.length = 2 ^ 31 + 1 ∧ (∀ x ∈ wrappedInput, predicate x = false) ∧
      toInt (wrappedInput.length % 2 ^ 64) = -2 ^ 31 + 1 ∧
      select ⟨s, true⟩ predicate wrappedInput = .error .undefined_behaviour := by
  have hnone : ∀ x ∈ wrappedInput, predicate x = false := by
    intro x hx
    unfold wrappedInput at hx
    rw [List.eq_of_mem_replicate hx]
    decide
  have hn : toInt (wrappedInput.length % 2 ^ 64) = -2 ^ 31 + 1 := by
    rw [length_wrappedInput]; decide
  refine ⟨?_, hnone, hn, ?_⟩
  · rw [length_wrappedInput]; norm_num
  · exact select_of_wrapped s predicate wrappedInput hnone (by rw [hn]; decide)
      (by rw [hn]; decide)

/-- C8: on the empty vector `select` returns the empty vector, for every
predicate and toolchain: `numElem` is `0` by the `index.empty()` test, and the
scatter pass changes nothing. -/
theorem select_nil (tc : Toolchain) (pred : Int → Bool) :
    select tc pred [] = .ok [] ∧ index tc pred [] = [] ∧ numElem tc pred [] = 0 ∧
      ∀ w, scatter tc pred [] (index tc pred []) w = .ok w := by
  obtain ⟨s, r⟩ := tc
  refine ⟨?_, rfl, rfl, fun w => ?_⟩
  · cases r <;> rfl
  · cases r <;> rfl

/-- C9 (violated by the code): on 256 multiples of three and the predicate of
`main`, the last element is selected but `index[255]` is `0`, so that
`index[255] - 1` wraps around to `2 ^ 64 - 1`; the output has length `0` and
the scatter pass writes outside of it. -/
theorem index_threes_256 (tc : Toolchain) :
    (List.replicate 256 (3 : Int))[255]? = some 3 ∧ predicate 3 = true ∧
      (index tc predicate (List.replicate 256 3))[255]? = some 0 ∧
      target 0 = 2 ^ 64 - 1 ∧
      numElem tc predicate (List.replicate 256 3) = 0 ∧
      select tc predicate (List.replicate 256 3) = .error .undefined_behaviour := by
  have hz : wrapCount tc (0 + 256) = 0 := by
    rw [wrapCount_256]; exact wrapCount_of_le tc 0 (by omega)
  refine ⟨List.getElem?_replicate_of_lt (by omega), by decide, ?_, by decide, ?_,
    select_threes_256 tc⟩
  · rw [getElem?_index_replicate tc predicate 3 256 255 (by decide) (by omega)]
    exact congrArg some hz
  · rw [numElem_eq, countP_replicate_true predicate 3 256 (by decide)]
    exact hz

/-- C10 (violated by the code): on 257 multiples of three and the predicate of
`main`, the first and the last element are both selected and have the same
scatter target `0`, and the 257 selected elements share one output slot. -/
theorem index_threes_257 (tc : Toolchain) :
    predicate 3 = true ∧
      (index tc predicate (List.replicate 257 3))[0]? = some 1 ∧
      (index tc predicate (List.replicate 257 3))[256]? = some 1 ∧
      numElem tc predicate (List.replicate 257 3) = 1 := by
  have h1 : wrapCount tc 1 = 1 := wrapCount_of_le tc 1 (by omega)
  have hz : wrapCount tc (1 + 256) = 1 := by rw [wrapCount_256]; exact h1
  refine ⟨by decide, ?_, ?_, ?_⟩
  · rw [getElem?_index_replicate tc predicate 3 257 0 (by decide) (by omega)]
    exact congrArg some h1
  · rw [getElem?_index_replicate tc predicate 3 257 256 (by decide) (by omega)]
    exact congrArg some hz
  · rw [numElem_eq, countP_replicate_true predicate 3 257 (by decide)]
    exact hz

/-- C16: on `[3, 6, 1, 9, 2, 12]` with the predicate of `main`, `select`
returns `[3, 6, 9, 12]`, for every toolchain. -/
theorem select_scenario (tc : Toolchain) :
    select tc predicate [3, 6, 1, 9, 2, 12] = .ok [3, 6, 9, 12] := by
  rw [select_eq_filter_of_le tc predicate _ (by decide) (fun _ => by decide)]
  rfl

/-- C18: for a vector whose length fits in a non-negative `int`, the `iota`
branch and the fallback branch of the scatter pass give the same result from
the same `index` and `w`, and so do the two builds of `select`. -/
theorem scatter_branches_agree (s : Bool) (pred : Int → Bool) (v : List Int)
    (hlen : v.length < 2 ^ 31) :
    (∀ idx w, scatter ⟨s, true⟩ pred v idx w = scatter ⟨s, false⟩ pred v idx w) ∧
      select ⟨s, true⟩ pred v = select ⟨s, false⟩ pred v := by
  have h : ∀ idx w, scatter ⟨s, true⟩ pred v idx w = scatter ⟨s, false⟩ pred v idx w := by
    intro idx w
    rw [scatter_eq_for_each_ptr ⟨s, true⟩ pred v idx w (fun _ => hlen),
      scatter_eq_for_each_ptr ⟨s, false⟩ pred v idx w (fun h => by cases h)]
  refine ⟨h, ?_⟩
  have hi : index ⟨s, true⟩ pred v = index ⟨s, false⟩ pred v := by
    rw [index_eq, index_eq]; rfl
  have hn : numElem ⟨s, true⟩ pred v = numElem ⟨s, false⟩ pred v := by
    rw [numElem_eq, numElem_eq]; rfl
  unfold select
  rw [hn, hi]
  simp only [h]

/-- Witness of C18 on the vector `[3, 6, 1, 9, 2, 12]`. -/
theorem scatter_branches_agree_witness :
    [3, 6, 1, 9, 2, 12].length < 2 ^ 31 ∧
      ((∀ idx w, scatter ⟨true, true⟩ predicate [3, 6, 1, 9, 2, 12] idx w
          = scatter ⟨true, false⟩ predicate [3, 6, 1, 9, 2, 12] idx w) ∧
        select ⟨true, true⟩ predicate [3, 6, 1, 9, 2, 12]
          = select ⟨true, false⟩ predicate [3, 6, 1, 9, 2, 12]) :=
  ⟨by decide, scatter_branches_agree true predicate [3, 6, 1, 9, 2, 12] (by decide)⟩

/-- C19: when at most 127 elements of `v` satisfy the predicate, the
conversions to `char` inside the scan leave every running total unchanged, and
`index[i]` is the exact number of positions `j <= i` whose element satisfies
the predicate. -/
theorem index_exact_of_le (tc : Toolchain) (pred : Int → Bool) (v : List Int)
    (hc : v.countP pred ≤ 127) :
    (∀ c : Nat, c ≤ v.countP pred → toChar tc c = (c : Int) ∧ toSizeT (toChar tc c) = c) ∧
      index tc pred v = ranksFrom pred 0 v ∧
      ∀ i, i < v.length → (index tc pred v)[i]? = some ((v.take (i + 1)).countP pred) := by
  refine ⟨fun c hle => ?_, ?_, fun i hi => ?_⟩
  · have h127 : c ≤ 127 := Nat.le_trans hle hc
    refine ⟨?_, wrapCount_of_le tc c h127⟩
    unfold toChar
    cases tc.charSigned <;> simp <;> omega
  · apply List.ext_getElem?
    intro i
    by_cases hi : i < v.length
    · rw [getElem?_index tc pred v i hi, getElem?_ranksFrom pred 0 v i hi, Nat.zero_add,
        wrapCount_of_le tc _ (Nat.le_trans (countP_take_le pred v _) hc)]
    · rw [List.getElem?_eq_none (by rw [length_index]; omega),
        List.getElem?_eq_none (by rw [length_ranksFrom]; omega)]
  · rw [getElem?_index tc pred v i hi,
      wrapCount_of_le tc _ (Nat.le_trans (countP_take_le pred v _) hc)]

/-- Witness of C19 on the vector `[3, 6, 1, 9, 2, 12]` with a signed `char`. -/
theorem index_exact_of_le_witness :
    [3, 6, 1, 9, 2, 12].countP predicate ≤ 127 ∧
      ((∀ c : Nat, c ≤ [3, 6, 1, 9, 2, 12].countP predicate →
          toChar ⟨true, true⟩ c = (c : Int) ∧ toSizeT (toChar ⟨true, true⟩ c) = c) ∧
        index ⟨true, true⟩ predicate [3, 6, 1, 9, 2, 12]
          = ranksFrom predicate 0 [3, 6, 1, 9, 2, 12] ∧
        ∀ i, i < [3, 6, 1, 9, 2, 12].length →
          (index ⟨true, true⟩ predicate [3, 6, 1, 9, 2, 12])[i]?
            = some (([3, 6, 1, 9, 2, 12].take (i + 1)).countP predicate)) :=
  ⟨by decide, index_exact_of_le ⟨true, true⟩ predicate [3, 6, 1, 9, 2, 12] (by decide)⟩

/-- C13: the mask built by `select` has the length of `v`, and its entry at
each position is `1` when the predicate holds for the element of `v` at that
position and `0` otherwise. -/
theorem v_sel_spec (pred : Int → Bool) (v : List Int) :
    (v_sel pred v).length = v.length ∧
      ∀ i : Nat, (v_sel pred v)[i]? = (v[i]?).map (fun x => if pred x = true then (1 : Int) else 0) := by
  unfold v_sel
  exact ⟨List.length_map _ _, fun i => List.getElem?_map _ _ _⟩

/-- C11 (violated by the code): on 256 multiples of three and the predicate of
`main`, the last entry of `index` is `0` and `select` allocates an output
vector of length `0`, while 256 elements satisfy the predicate. -/
theorem vector_int_threes_256 (tc : Toolchain) :
    (List.replicate 256 (3 : Int)).countP predicate = 256 ∧
      (index tc predicate (List.replicate 256 3)).getLast? = some 0 ∧
      vector_int (numElem tc predicate (List.replicate 256 3)) = .ok [] := by
  have hz : wrapCount tc (0 + 256) = 0 := by
    rw [wrapCount_256]; exact wrapCount_of_le tc 0 (by omega)
  have hn : numElem tc predicate (List.replicate 256 3) = 0 := by
    rw [numElem_eq, countP_replicate_true predicate 3 256 (by decide)]
    exact hz
  refine ⟨countP_replicate_true predicate 3 256 (by decide), ?_, ?_⟩
  · rw [List.getLast?_eq_getElem?, length_index, List.length_replicate,
      getElem?_index_replicate tc predicate 3 256 255 (by decide) (by omega)]
    exact congrArg some hz
  · rw [hn]; rfl

/-- C12 (violated by the code): on multiples of three and the predicate of
`main`, with a signed `char` the entry `index[127]` is `2 ^ 64 - 128` although
128 positions up to there are selected, and with an unsigned `char` the entry
`index[255]` is `0` although 256 positions are selected. -/
theorem index_threes_wraps (r : Bool) :
    ((List.replicate 128 (3 : Int)).take (127 + 1)).countP predicate = 128 ∧
      (index ⟨true, r⟩ predicate (List.replicate 128 3))[127]? = some (2 ^ 64 - 128) ∧
      ((List.replicate 256 (3 : Int)).take (255 + 1)).countP predicate = 256 ∧
      (index ⟨false, r⟩ predicate (List.replicate 256 3))[255]? = some 0 := by
  have hz : wrapCount ⟨false, r⟩ (0 + 256) = 0 := by
    rw [wrapCount_256]; exact wrapCount_of_le _ 0 (by omega)
  refine ⟨?_, ?_, ?_, ?_⟩
  · rw [List.take_replicate]; exact countP_replicate_true predicate 3 _ (by decide)
  · rw [getElem?_index_replicate _ predicate 3 128 127 (by decide) (by omega)]
    exact congrArg some (wrapCount_signed_128 r)
  · rw [List.take_replicate]; exact countP_replicate_true predicate 3 _ (by decide)
  · rw [getElem?_index_replicate _ predicate 3 256 255 (by decide) (by omega)]
    exact congrArg some hz

theorem length_write_iota (pred : Int → Bool) (v : List Int) (idx : List Nat)
    (w : List Int) (i : Nat) : (write_iota pred v idx w i).length = w.length := by
  unfold write_iota
  split
  · split <;> simp
  · rfl

theorem scatter_iota_of_writable (pred : Int → Bool) (v : List Int) (idx : List Nat)
    (w : List Int) (i : Nat) (h : Writable pred v idx w.length i) :
    scatter_iota pred v idx w i = .ok (write_iota pred v idx w i) := by
  obtain ⟨x, hx, hk⟩ := h
  unfold scatter_iota write_iota
  rw [hx]
  cases hp : pred x
  · cases idx[i]? <;> simp [hp]
  · obtain ⟨k, hk1, hk2⟩ := hk hp
    simp [hk1, store, hk2, hp]

theorem scatter_iota_of_not_writable (pred : Int → Bool) (v : List Int) (idx : List Nat)
    (w : List Int) (i : Nat) (h : ¬ Writable pred v idx w.length i) :
    scatter_iota pred v idx w i = .error .undefined_behaviour := by
  unfold scatter_iota
  cases hx : v[i]? with
  | none => rfl
  | some x =>
    cases hp : pred x
    · exact absurd ⟨x, hx, fun h2 => by rw [hp] at h2; cases h2⟩ h
    · cases hk : idx[i]? with
      | none => simp [hp]
      | some k =>
        have hlt : ¬ target k < w.length := fun hlt => h ⟨x, hx, fun _ => ⟨k, hk, hlt⟩⟩
        simp [store, hlt, hp]

theorem for_each_iota_of_writable (pred : Int → Bool) (v : List Int) (idx : List Nat)
    (order : List Nat) (w : List Int) (h : ∀ i ∈ order, Writable pred v idx w.length i) :
    for_each_iota pred v idx order w = .ok (order.foldl (write_iota pred v idx) w) := by
  induction order generalizing w with
  | nil => rfl
  | cons i rest ih =>
    rw [for_each_iota_cons, scatter_iota_of_writable pred v idx w i (h i (List.mem_cons_self _ _))]
    have h2 : ∀ j ∈ rest, Writable pred v idx (write_iota pred v idx w i).length j := by
      intro j hj
      rw [length_write_iota]
      exact h j (List.mem_cons_of_mem _ hj)
    exact ih _ h2

theorem for_each_iota_of_not_writable (pred : Int → Bool) (v : List Int) (idx : List Nat)
    (order : List Nat) (w : List Int) (h : ∃ i ∈ order, ¬ Writable pred v idx w.length i) :
    for_each_iota pred v idx order w = .error .undefined_behaviour := by
  induction order generalizing w with
  | nil => obtain ⟨i, hi, -⟩ := h; cases hi
  | cons j rest ih =>
    rw [for_each_iota_cons]
    by_cases hj : Writable pred v idx w.length j
    · rw [scatter_iota_of_writable pred v idx w j hj]
      obtain ⟨i, hi, hni⟩ := h
      rcases List.mem_cons.mp hi with rfl | hi2
      · exact absurd hj hni
      · exact ih _ ⟨i, hi2, by rw [length_write_iota]; exact hni⟩
    · rw [scatter_iota_of_not_writable pred v idx w j hj]
      rfl

theorem wrapCount_of_le_charLimit (tc : Toolchain) (c : Nat) (h : c ≤ charLimit tc) :
    wrapCount tc c = c := by
  unfold charLimit at h
  unfold wrapCount toChar toSizeT
  cases hs : tc.charSigned <;> rw [hs] at h <;> simp at h ⊢ <;> omega

theorem target_wrapCount_charLimit_succ (tc : Toolchain) :
    max_size < target (wrapCount tc (charLimit tc + 1)) := by
  obtain ⟨s, r⟩ := tc
  cases s <;> cases r <;> decide

theorem countP_take_succ (pred : Int → Bool) (v : List Int) (k : Nat) (x : Int)
    (hx : v[k]? = some x) :
    (v.take (k + 1)).countP pred = (v.take k).countP pred + (if pred x = true then 1 else 0) := by
  rw [List.take_succ, hx, List.countP_append]
  simp [List.countP_cons]

theorem countP_take_mono (pred : Int → Bool) (v : List Int) (a b : Nat) (h : a ≤ b) :
    (v.take a).countP pred ≤ (v.take b).countP pred := by
  have h2 : v.take a = (v.take b).take a := by
    rw [List.take_take, Nat.min_eq_left h]
  rw [h2]
  exact countP_take_le pred _ _

/-- When every call of the scatter pass for the indices below `m` stays in
bounds of a vector that `std::vector` can hold, the running count has not left
the range of `char` at any of these indices. -/
theorem countP_take_le_charLimit (tc : Toolchain) (pred : Int → Bool) (v : List Int)
    (len m : Nat) (hlen : len ≤ max_size)
    (h : ∀ i, i < m → Writable pred v (index tc pred v) len i) (k : Nat) (hk : k < m) :
    (v.take (k + 1)).countP pred ≤ charLimit tc := by
  induction k with
  | zero =>
    rw [Nat.zero_add]
    have h1 : (v.take 1).countP pred ≤ (v.take 1).length := List.countP_le_length _
    have h2 : (v.take 1).length ≤ 1 := by rw [List.length_take]; exact Nat.min_le_left _ _
    have h3 : 1 ≤ charLimit tc := by unfold charLimit; split <;> omega
    omega
  | succ j ih =>
    have ihj := ih (by omega)
    obtain ⟨x, hx, hw⟩ := h (j + 1) hk
    rw [countP_take_succ pred v (j + 1) x hx]
    cases hp : pred x
    · simpa using ihj
    · simp only [if_true]
      by_contra hcon
      have heq : (v.take (j + 1)).countP pred = charLimit tc := by omega
      obtain ⟨kk, hk1, hk2⟩ := hw hp
      have hlt : j + 1 < v.length := by
        by_contra hge
        rw [List.getElem?_eq_none (by omega)] at hx
        cases hx
      rw [getElem?_index tc pred v (j + 1) hlt, countP_take_succ pred v (j + 1) x hx, hp,
        heq] at hk1
      simp only [if_true, Option.some.injEq] at hk1
      have := target_wrapCount_charLimit_succ tc
      rw [hk1] at this
      omega

theorem target_of_pos (c : Nat) (h1 : 1 ≤ c) (h2 : c < 2 ^ 64) : target c = c - 1 := by
  unfold target
  omega

theorem charLimit_le (tc : Toolchain) : charLimit tc ≤ 255 := by
  unfold charLimit; split <;> omega

/-- Under the same condition two different selected indices below `m` have
different scatter targets. -/
theorem target_index_ne (tc : Toolchain) (pred : Int → Bool) (v : List Int)
    (len m : Nat) (hlen : len ≤ max_size)
    (h : ∀ i, i < m → Writable pred v (index tc pred v) len i)
    (i j : Nat) (hij : i < j) (hj : j < m) (x y : Int) (ki kj : Nat)
    (hx : v[i]? = some x) (hy : v[j]? = some y) (hpx : pred x = true) (hpy : pred y = true)
    (hki : (index tc pred v)[i]? = some ki) (hkj : (index tc pred v)[j]? = some kj) :
    target ki ≠ target kj := by
  have hil : i < v.length := by
    by_contra hge
    rw [List.getElem?_eq_none (by omega)] at hx
    cases hx
  have hjl : j < v.length := by
    by_contra hge
    rw [List.getElem?_eq_none (by omega)] at hy
    cases hy
  have hci := countP_take_le_charLimit tc pred v len m hlen h i (by omega)
  have hcj := countP_take_le_charLimit tc pred v len m hlen h j hj
  rw [getElem?_index tc pred v i hil, wrapCount_of_le_charLimit tc _ hci] at hki
  rw [getElem?_index tc pred v j hjl, wrapCount_of_le_charLimit tc _ hcj] at hkj
  have hki2 := Option.some.inj hki
  have hkj2 := Option.some.inj hkj
  have hi1 : 1 ≤ ki := by
    rw [← hki2, countP_take_succ pred v i x hx, hpx]; simp
  have hlt : ki < kj := by
    rw [← hki2, ← hkj2, countP_take_succ pred v j y hy, hpy]
    have := countP_take_mono pred v (i + 1) j hij
    simp only [if_true]
    omega
  have hl := charLimit_le tc
  rw [target_of_pos ki hi1 (by omega), target_of_pos kj (by omega) (by omega)]
  omega

theorem write_iota_comm (pred : Int → Bool) (v : List Int) (idx : List Nat) (w : List Int)
    (i j : Nat)
    (h : ∀ x y ki kj, v[i]? = some x → v[j]? = some y → pred x = true → pred y = true →
      idx[i]? = some ki → idx[j]? = some kj → i ≠ j → target ki ≠ target kj) :
    write_iota pred v idx (write_iota pred v idx w i) j
      = write_iota pred v idx (write_iota pred v idx w j) i := by
  by_cases hij : i = j
  · rw [hij]
  · unfold write_iota
    cases hx : v[i]? with
    | none => simp
    | some x =>
      cases hki : idx[i]? with
      | none => simp
      | some ki =>
        cases hy : v[j]? with
        | none => simp
        | some y =>
          cases hkj : idx[j]? with
          | none => simp
          | some kj =>
            cases hpx : pred x <;> cases hpy : pred y
            · simp [hpx, hpy]
            · simp [hpx, hpy]
            · simp [hpx, hpy]
            · simp only [hpx, hpy, if_true]
              exact List.set_comm x y w (h x y ki kj hx hy hpx hpy hki hkj hij)

theorem length_le_of_vector_int (n : Nat) (w : List Int) (h : vector_int n = .ok w) :
    w.length ≤ max_size := by
  unfold vector_int at h
  split at h
  · cases h
  · have h2 := Except.ok.inj h
    rw [← h2, List.length_replicate]
    omega

/-- The scatter pass gives the same result in every order of the indices
below `m`, on a vector `w` that `std::vector` can hold. -/
theorem for_each_iota_perm_range (tc : Toolchain) (pred : Int → Bool) (v w : List Int)
    (order : List Nat) (m : Nat) (hlen : w.length ≤ max_size)
    (hp : order.Perm (List.range m)) :
    for_each_iota pred v (index tc pred v) order w
      = for_each_iota pred v (index tc pred v) (List.range m) w := by
  by_cases hall : ∀ i, i < m → Writable pred v (index tc pred v) w.length i
  · have h1 : ∀ i ∈ order, Writable pred v (index tc pred v) w.length i :=
      fun i hi => hall i (List.mem_range.mp (hp.mem_iff.mp hi))
    have h2 : ∀ i ∈ List.range m, Writable pred v (index tc pred v) w.length i :=
      fun i hi => hall i (List.mem_range.mp hi)
    rw [for_each_iota_of_writable _ _ _ _ _ h1, for_each_iota_of_writable _ _ _ _ _ h2]
    congr 1
    refine hp.foldl_eq' (fun i hi j hj z => ?_) w
    have him : i < m := List.mem_range.mp (hp.mem_iff.mp hi)
    have hjm : j < m := List.mem_range.mp (hp.mem_iff.mp hj)
    refine write_iota_comm pred v _ z i j (fun x y ki kj hx hy hpx hpy hki hkj hne => ?_)
    rcases Nat.lt_or_gt_of_ne hne with hlt | hgt
    · exact target_index_ne tc pred v w.length m hlen hall i j hlt hjm x y ki kj hx hy hpx hpy
        hki hkj
    · exact (target_index_ne tc pred v w.length m hlen hall j i hgt him y x kj ki hy hx hpy hpx
        hkj hki).symm
  · have hex : ∃ i, i < m ∧ ¬ Writable pred v (index tc pred v) w.length i := by
      by_contra hcon
      exact hall (fun i hi => by
        by_contra hw
        exact hcon ⟨i, hi, hw⟩)
    obtain ⟨i, hi, hw⟩ := hex
    rw [for_each_iota_of_not_writable _ _ _ _ _ ⟨i, hp.mem_iff.mpr (List.mem_range.mpr hi), hw⟩,
      for_each_iota_of_not_writable _ _ _ _ _ ⟨i, List.mem_range.mpr hi, hw⟩]

/-- C14: on the vector `w` that `select` has allocated, the conditional writes
`w[index[i] - 1] = v[i]` give the same result in every order of the indices
`0 .. n - 1` as in increasing order: the same vector when every write is
inside of `w`, and otherwise a write outside of `w` in either order. -/
theorem for_each_iota_order_independent (tc : Toolchain) (pred : Int → Bool) (v w : List Int)
    (order : List Nat) (hw : vector_int (numElem tc pred v) = .ok w)
    (hp : order.Perm (List.range v.length)) :
    for_each_iota pred v (index tc pred v) order w
      = for_each_iota pred v (index tc pred v) (List.range v.length) w :=
  for_each_iota_perm_range tc pred v w order v.length (length_le_of_vector_int _ w hw) hp

set_option maxRecDepth 8000 in
/-- Witness of C14 on the vector `[3, 6, 1, 9, 2, 12]`, visited in the order
`5, 3, 1, 0, 2, 4`. -/
theorem for_each_iota_order_independent_witness :
    vector_int (numElem ⟨true, true⟩ predicate [3, 6, 1, 9, 2, 12]) = .ok [0, 0, 0, 0] ∧
      List.Perm [5, 3, 1, 0, 2, 4] (List.range [3, 6, 1, 9, 2, 12].length) ∧
      for_each_iota predicate [3, 6, 1, 9, 2, 12]
          (index ⟨true, true⟩ predicate [3, 6, 1, 9, 2, 12]) [5, 3, 1, 0, 2, 4] [0, 0, 0, 0]
        = for_each_iota predicate [3, 6, 1, 9, 2, 12]
          (index ⟨true, true⟩ predicate [3, 6, 1, 9, 2, 12])
          (List.range [3, 6, 1, 9, 2, 12].length) [0, 0, 0, 0] :=
  ⟨by decide, by decide,
    for_each_iota_order_independent ⟨true, true⟩ predicate [3, 6, 1, 9, 2, 12] [0, 0, 0, 0]
      [5, 3, 1, 0, 2, 4] (by decide) (by decide)⟩

theorem transform_throwing_pure {ε : Type} (p : Int → Bool) (v : List Int) :
    transform_throwing (fun x => (.ok (p x) : Except ε Bool)) v = .ok (v_sel p v) := by
  induction v with
  | nil => rfl
  | cons x xs ih =>
    simp only [transform_throwing, call_pred, ih, v_sel, List.map_cons]
    rfl

theorem foldlM_raise_fault {ε α : Type} (f : List Int → α → Except Fault (List Int))
    (l : List α) (w : List Int) :
    l.foldlM (fun w1 a => (raise_fault (f w1 a) : Except (Raised ε) (List Int))) w
      = raise_fault (l.foldlM f w) := by
  induction l generalizing w with
  | nil => rfl
  | cons a rest ih =>
    simp only [List.foldlM_cons]
    cases h : f w a with
    | error e => rfl
    | ok w1 => exact ih w1

theorem scatter_iota_throwing_pure {ε : Type} (p : Int → Bool) (v : List Int) (idx : List Nat) :
    scatter_iota_throwing (fun x => (.ok (p x) : Except ε Bool)) v idx
      = fun w i => raise_fault (scatter_iota p v idx w i) := by
  funext w i
  unfold scatter_iota_throwing scatter_iota call_pred
  cases v[i]? with
  | none => rfl
  | some x =>
    cases hp : p x
    · simp [hp, raise_fault, bind, Except.bind, pure, Except.pure]
    · cases idx[i]? <;> simp [hp, raise_fault, bind, Except.bind]

theorem scatter_ptr_throwing_pure {ε : Type} (p : Int → Bool) (idx : List Nat) :
    scatter_ptr_throwing (fun x => (.ok (p x) : Except ε Bool)) idx
      = fun w ix => raise_fault (scatter_ptr p idx w ix) := by
  funext w ix
  unfold scatter_ptr_throwing scatter_ptr call_pred
  cases hp : p ix.2
  · simp [hp, raise_fault, bind, Except.bind, pure, Except.pure]
  · cases idx[ix.1]? <;> simp [hp, raise_fault, bind, Except.bind]

/-- With a predicate that never throws, `select` behaves as with the pure
predicate. -/
theorem select_throwing_pure {ε : Type} (tc : Toolchain) (p : Int → Bool) (v : List Int) :
    select_throwing tc (fun x => (.ok (p x) : Except ε Bool)) v = raise_fault (select tc p v) := by
  unfold select_throwing select
  rw [transform_throwing_pure]
  show (raise_fault (vector_int (numElem tc p v)) >>= _) = _
  cases hv : vector_int (numElem tc p v) with
  | error e => rfl
  | ok w =>
    show scatter_throwing tc _ v (index tc p v) w = raise_fault (scatter tc p v (index tc p v) w)
    unfold scatter_throwing scatter
    cases tc.hasRanges
    · simp only [Bool.false_eq_true, if_false, scatter_ptr_throwing_pure, for_each_ptr]
      exact foldlM_raise_fault _ _ _
    · simp only [if_true, scatter_iota_throwing_pure, for_each_iota]
      split
      · unfold for_each_wrapped_throwing for_each_wrapped
        simp only [scatter_iota_throwing_pure, for_each_iota]
        rw [foldlM_raise_fault]
        cases (List.range int_max_succ).foldlM (scatter_iota p v (index tc p v)) w with
        | error e => rfl
        | ok w1 => split <;> rfl
      · exact foldlM_raise_fault _ _ _

theorem transform_throwing_of_fault {ε : Type} (pred : Int → Except ε Bool)
    (pre post : List Int) (x : Int) (e : ε)
    (hpre : ∀ y ∈ pre, ∃ b, pred y = .ok b) (hx : pred x = .error e) :
    transform_throwing pred (pre ++ x :: post) = .error (.predicate_fault e) := by
  induction pre with
  | nil =>
    simp only [List.nil_append, transform_throwing, call_pred, hx]
    rfl
  | cons y ys ih =>
    obtain ⟨b, hb⟩ := hpre y (List.mem_cons_self _ _)
    have ih2 := ih (fun z hz => hpre z (List.mem_cons_of_mem _ hz))
    have hstep : transform_throwing pred (y :: (ys ++ x :: post))
        = (call_pred pred y >>= fun b => transform_throwing pred (ys ++ x :: post) >>= fun rest =>
            pure ((if b then (1 : Int) else (0 : Int)) :: rest)) := rfl
    rw [List.cons_append, hstep, ih2]
    simp only [call_pred, hb]
    rfl

/-- When the predicate throws on an element of `v`, having returned on the
elements before it, `select` ends with that exception, raised while the mask
is built. -/
theorem select_throwing_of_fault {ε : Type} (tc : Toolchain) (pred : Int → Except ε Bool)
    (pre post : List Int) (x : Int) (e : ε)
    (hpre : ∀ y ∈ pre, ∃ b, pred y = .ok b) (hx : pred x = .error e) :
    select_throwing tc pred (pre ++ x :: post) = .error (.predicate_fault e) := by
  unfold select_throwing
  rw [transform_throwing_of_fault pred pre post x e hpre hx]
  rfl

/-- C15 (violated by the code): with a signed `char`, on 128 multiples of
three and a predicate that throws on no element, `select` ends with
`std::length_error`. -/
theorem select_throwing_threes_128 (r : Bool) :
    (∀ x, predicate_nothrow x = .ok (predicate x)) ∧
      select_throwing ⟨true, r⟩ predicate_nothrow (List.replicate 128 3)
        = .error (.fault .length_error) := by
  refine ⟨fun x => rfl, ?_⟩
  have h := select_throwing_pure (ε := Unit) ⟨true, r⟩ predicate (List.replicate 128 3)
  rw [select_threes_128 r] at h
  exact h

theorem stoll_trailing_text : stoll "12abc".toList = .ok 12 := by rfl

theorem stoll_no_digits : stoll "abc".toList = .error .invalid_argument := by rfl

theorem vector_int_twelve : vector_int (toSizeT 12) = .ok (List.replicate 12 0) := by rfl

/-- C17 (fails as stated): the argument `12abc` is not the text of an integer,
yet `main` converts it to `12` and calls `select`, whatever the toolchain and
the values the vector is filled with; with a vector of zeros the run ends with
`return 0`. -/
theorem main_trailing_text :
    is_integer_text "12abc".toList = false ∧
      (∀ tc fill, (main tc fill ["exercise1".toList, "12abc".toList]).select_called = true) ∧
      main ⟨true, true⟩ id ["exercise1".toList, "12abc".toList] = ⟨.returned 0, true⟩ := by
  refine ⟨by decide, fun tc fill => ?_, ?_⟩
  · have h2 : (["exercise1".toList, "12abc".toList] : List (List Char)).length = 2 := rfl
    have hg : (["exercise1".toList, "12abc".toList] : List (List Char)).getD 1 []
        = "12abc".toList := rfl
    unfold main
    rw [if_neg (by rw [h2]; decide), hg, stoll_trailing_text]
    simp only [vector_int_twelve]
    split
    · rfl
    · rfl
    · split <;> rfl
  · have h2 : (["exercise1".toList, "12abc".toList] : List (List Char)).length = 2 := rfl
    have hg : (["exercise1".toList, "12abc".toList] : List (List Char)).getD 1 []
        = "12abc".toList := rfl
    have hs : select ⟨true, true⟩ predicate (id (List.replicate 12 0))
        = .ok (List.replicate 12 0) :=
      select_eq_filter_of_le _ _ _ (by decide) (fun _ => by decide)
    unfold main
    rw [if_neg (by rw [h2]; decide), hg, stoll_trailing_text]
    simp only [vector_int_twelve, hs]
    rfl

/-- C17 (amended): when `argc` is not `2`, `main` returns `1`; when `argc` is
`2` and `std::stoll` throws on the argument, the run is terminated by the
exception; in both cases `select` is not called. -/
theorem main_of_usage_error (tc : Toolchain) (fill : List Int → List Int)
    (argv : List (List Char))
    (h : argv.length ≠ 2 ∨ ∃ e, stoll (argv.getD 1 []) = .error e) :
    (main tc fill argv).select_called = false ∧
      (main tc fill argv).ending = (if argv.length ≠ 2 then .returned 1 else .terminated) := by
  unfold main
  by_cases hl : argv.length ≠ 2
  · rw [if_pos hl, if_pos hl]
    exact ⟨rfl, rfl⟩
  · rw [if_neg hl, if_neg hl]
    rcases h with h | ⟨e, he⟩
    · exact absurd h hl
    · rw [he]
      exact ⟨rfl, rfl⟩

/-- Witness of the amended C17 on the argument `abc`. -/
theorem main_of_usage_error_witness :
    ((["exercise1".toList, "abc".toList] : List (List Char)).length ≠ 2 ∨
        ∃ e, stoll ((["exercise1".toList, "abc".toList] : List (List Char)).getD 1 [])
          = .error e) ∧
      (main ⟨true, true⟩ id ["exercise1".toList, "abc".toList]).select_called = false ∧
      (main ⟨true, true⟩ id ["exercise1".toList, "abc".toList]).ending
        = (if (["exercise1".toList, "abc".toList] : List (List Char)).length ≠ 2
            then .returned 1 else .terminated) :=
  ⟨Or.inr ⟨.invalid_argument, stoll_no_digits⟩,
    main_of_usage_error ⟨true, true⟩ id ["exercise1".toList, "abc".toList]
      (Or.inr ⟨.invalid_argument, stoll_no_digits⟩)⟩

end Lab1
